import Mathlib

/-!
Shallow embedding of the MonsterFloat rational-number library
(`src/src/MonsterFloat.ts`, `src/bigfloat.js`, `src/unnamed/part_000`).

JS `bigint` values are embedded as `Int`; JS `/` and `%` on bigints are
truncating division and remainder, i.e. `Int.tdiv` and `Int.tmod`.
JS strings are embedded as `List Char`.
Fallible code paths (the constructor's zero-denominator throw, string
parsing) return `Option` / `Except`.
-/

/-- Decimal digit character test (code points 48 to 57). -/
def isDecDigit (c : Char) : Bool := 48 ≤ c.toNat && c.toNat ≤ 57

/-- Hexadecimal digit character test. -/
def isHexDigit (c : Char) : Bool :=
  isDecDigit c || (97 ≤ c.toNat && c.toNat ≤ 102) || (65 ≤ c.toNat && c.toNat ≤ 70)

/-- Octal digit character test. -/
def isOctDigit (c : Char) : Bool := 48 ≤ c.toNat && c.toNat ≤ 55

/-- Binary digit character test. -/
def isBinDigit (c : Char) : Bool := c.toNat = 48 || c.toNat = 49

/-- Fuel-based helper producing the decimal digits of a natural number,
most significant digit first.  The fuel argument only serves structural
termination; any `fuel > n` computes the full digit list. -/
def natToDigitsAux : Nat → Nat → List Char
  | 0, _ => []
  | fuel+1, n =>
    if n < 10 then [Char.ofNat (48 + n)]
    else natToDigitsAux fuel (n / 10) ++ [Char.ofNat (48 + n % 10)]

/-- Decimal digit list of a natural number: the embedding of JS
`BigInt.prototype.toString()` for nonnegative values. -/
def natToDigits (n : Nat) : List Char := natToDigitsAux (n+1) n

/-- Embedding of JS `BigInt.prototype.toString()`: decimal digits with a
leading minus sign for negative values. -/
def intToStr (i : Int) : List Char :=
  if i < 0 then '-' :: natToDigits i.natAbs else natToDigits i.natAbs

/-- Numeric value denoted by a list of decimal digit characters
(most significant first). -/
def digitsVal (s : List Char) : Nat := s.foldl (fun a c => 10 * a + (c.toNat - 48)) 0

/-- Value of a digit list in a given base, accepting hexadecimal letter
digits (used for the non-decimal cases of JS `BigInt(string)`). -/
def hexDigitVal (c : Char) : Nat :=
  if isDecDigit c then c.toNat - 48 else if 97 ≤ c.toNat then c.toNat - 87 else c.toNat - 55

/-- Fold a digit list in an arbitrary base. -/
def digitsValBase (base : Nat) (s : List Char) : Nat :=
  s.foldl (fun a c => base * a + hexDigitVal c) 0

/-- JS whitespace (the characters trimmed by `Number(string)` and
`BigInt(string)` conversion: space, tab, line terminators, vertical tab,
form feed, no-break space, BOM). -/
def isJSWhitespace (c : Char) : Bool :=
  c.toNat = 32 || c.toNat = 9 || c.toNat = 10 || c.toNat = 13 ||
  c.toNat = 11 || c.toNat = 12 || c.toNat = 160 || c.toNat = 65279

/-- Trim JS whitespace from both ends of a string. -/
def jsTrim (s : List Char) : List Char :=
  ((s.dropWhile isJSWhitespace).reverse.dropWhile isJSWhitespace).reverse

/-- Split a character list at the leading run of decimal digits,
returning the digits and the remainder of the list. -/
def takeDigits : List Char → List Char × List Char
  | [] => ([], [])
  | c :: cs =>
    if isDecDigit c then
      let p := takeDigits cs
      (c :: p.1, p.2)
    else ([], c :: cs)

/-- Recognizer for an optional trailing `ExponentPart` of the JS
`StrUnsignedDecimalLiteral` grammar: either nothing, or `e`/`E`, an
optional sign, and a nonempty digit run. -/
def expTail (s : List Char) : Bool :=
  match s with
  | [] => true
  | c :: cs =>
    (c = 'e' || c = 'E') &&
      (match cs with
       | '+' :: ds => !ds.isEmpty && ds.all isDecDigit
       | '-' :: ds => !ds.isEmpty && ds.all isDecDigit
       | ds => !ds.isEmpty && ds.all isDecDigit)

/-- Recognizer for the JS `StrUnsignedDecimalLiteral` grammar:
`Infinity`, or decimal digits with an optional dot, an optional
fractional digit run and an optional exponent part. -/
def strUnsignedDecimal (s : List Char) : Bool :=
  (s == "Infinity".toList) ||
  (let p := takeDigits s
   match p.2 with
   | '.' :: r2 =>
     let q := takeDigits r2
     (!p.1.isEmpty || !q.1.isEmpty) && expTail q.2
   | r1 => !p.1.isEmpty && expTail r1)

/-- Recognizer for the JS `NonDecimalIntegerLiteral` grammar
(`0x`/`0o`/`0b` prefixes; no sign allowed). -/
def nonDecimalIntLit (s : List Char) : Bool :=
  match s with
  | '0' :: x :: ds =>
    ((x = 'x' || x = 'X') && !ds.isEmpty && ds.all isHexDigit) ||
    ((x = 'o' || x = 'O') && !ds.isEmpty && ds.all isOctDigit) ||
    ((x = 'b' || x = 'B') && !ds.isEmpty && ds.all isBinDigit)
  | _ => false

/-- Recognizer for the JS `StrNumericLiteral` grammar: an optionally
signed unsigned-decimal literal, or an unsigned non-decimal literal. -/
def strNumericLiteral (s : List Char) : Bool :=
  match s with
  | '+' :: r => strUnsignedDecimal r
  | '-' :: r => strUnsignedDecimal r
  | _ => strUnsignedDecimal s || nonDecimalIntLit s

/-- Embedding of the JS test `!Number.isNaN(Number(s))`: a string
converts to a non-NaN number exactly when, after trimming whitespace, it
is empty (value 0) or matches the `StrNumericLiteral` grammar. -/
def jsIsNumericString (s : List Char) : Bool :=
  let t := jsTrim s
  t.isEmpty || strNumericLiteral t

/-- Embedding of JS `BigInt(string)` (the `StringIntegerLiteral`
conversion): trims whitespace; empty means `0n`; otherwise an optionally
signed nonempty decimal digit run, or an unsigned `0x`/`0o`/`0b`
literal; anything else throws (`none`). -/
def jsBigIntOfString (s : List Char) : Option Int :=
  let t := jsTrim s
  if t.isEmpty then some 0
  else
    match t with
    | '0' :: 'x' :: ds => if !ds.isEmpty && ds.all isHexDigit then some (digitsValBase 16 ds : Int) else none
    | '0' :: 'X' :: ds => if !ds.isEmpty && ds.all isHexDigit then some (digitsValBase 16 ds : Int) else none
    | '0' :: 'o' :: ds => if !ds.isEmpty && ds.all isOctDigit then some (digitsValBase 8 ds : Int) else none
    | '0' :: 'O' :: ds => if !ds.isEmpty && ds.all isOctDigit then some (digitsValBase 8 ds : Int) else none
    | '0' :: 'b' :: ds => if !ds.isEmpty && ds.all isBinDigit then some (digitsValBase 2 ds : Int) else none
    | '0' :: 'B' :: ds => if !ds.isEmpty && ds.all isBinDigit then some (digitsValBase 2 ds : Int) else none
    | '+' :: ds => if !ds.isEmpty && ds.all isDecDigit then some (digitsVal ds : Int) else none
    | '-' :: ds => if !ds.isEmpty && ds.all isDecDigit then some (-(digitsVal ds : Int)) else none
    | ds => if ds.all isDecDigit then some (digitsVal ds : Int) else none

/-- Embedding of JS `String.prototype.split` with a single-character
separator: the list of chunks between occurrences of the separator. -/
def splitOnChar (sep : Char) : List Char → List (List Char)
  | [] => [[]]
  | c :: cs =>
    match splitOnChar sep cs with
    | [] => [[]]
    | p :: ps => if c = sep then [] :: p :: ps else (c :: p) :: ps

namespace MonsterMath

/-- Embedding of `MonsterMath.gcd` from `src/unnamed/part_000`:
`(a, b) => b == 0n ? a : MonsterMath.gcd(b, a % b)`.
JS `%` on bigints is the truncating remainder `Int.tmod`. -/
def gcd (a b : Int) : Int :=
  if _h : b = 0 then a else gcd b (a.tmod b)
termination_by b.natAbs
decreasing_by
  have habs : (a.tmod b).natAbs = a.natAbs % b.natAbs := by
    cases a <;> cases b <;> simp only [Int.tmod, Int.natAbs_neg] <;> rfl
  rw [habs]
  exact Nat.mod_lt _ (Int.natAbs_pos.mpr _h)

end MonsterMath

/-- Error taxonomy of the library, as named by the design document: the
constructor's zero-denominator throw and the string-parse throws. -/
inductive MFError where
  | divisionByZero
  | parseError
deriving DecidableEq, Repr

/-- Embedding of the `MonsterFloat` class: a numerator/denominator pair
of bigints. -/
structure MonsterFloat where
  numerator : Int
  denominator : Int
deriving DecidableEq, Repr

namespace MonsterFloat

/-- Embedding of the `MonsterFloat` constructor: throws
("Cannot divide by zero", modelled as `none`) when the denominator is
`0n`, otherwise stores the pair as-is, unnormalized. -/
def construct (numerator denominator : Int) : Option MonsterFloat :=
  if denominator = 0 then none else some ⟨numerator, denominator⟩

/-- Embedding of `MonsterFloat.normalize`: divides both components by
`MonsterMath.gcd(numerator, denominator)` (JS bigint `/` is `Int.tdiv`)
and rebuilds through the checked constructor. -/
def normalize (x : MonsterFloat) : Option MonsterFloat :=
  let g := MonsterMath.gcd x.numerator x.denominator
  construct (x.numerator.tdiv g) (x.denominator.tdiv g)

/-- Embedding of the `MonsterFloat` case of `MonsterFloat.from`:
`new MonsterFloat(other._numerator, other._denominator)`, a copy through
the checked constructor. -/
def copy (other : MonsterFloat) : Option MonsterFloat :=
  construct other.numerator other.denominator

/-- Embedding of the `bigint` case of `MonsterFloat.from`:
`new MonsterFloat(other, 1n)` (the denominator 1 is never zero, so the
constructor check always passes). -/
def fromBigInt (other : Int) : MonsterFloat := ⟨other, 1⟩

/-- One step of the character scan of `numberStringToBigFloatHelper`.
State: accumulated integer `res`, `decimalPlaces`, `foundDot`.  Source
order: `decimalPlaces` is bumped first whenever the dot has been seen,
then the character is either the dot (set the flag) or is accumulated
via `res = 10n*res + BigInt(char.charCodeAt(0)-48)`.  Note that a
non-digit character such as a minus sign contributes its (negative)
code-point offset; nothing in the scan rejects it. -/
def scanStep : Int × Nat × Bool → Char → Int × Nat × Bool :=
  fun s c =>
    let places := if s.2.2 then s.2.1 + 1 else s.2.1
    if c = '.' then (s.1, places, true)
    else (10 * s.1 + ((c.toNat : Int) - 48), places, s.2.2)

/-- Embedding of the inner helper `numberStringToBigFloatHelper` of
`MonsterFloat.from`: scan the characters, then build
`new MonsterFloat(res, 10n ** decimalPlaces).normalize()`.  The
`decimalPlaces` bigint counter only ever increments from 0, so it is
embedded as a `Nat`. -/
def numberStringToBigFloatHelper (n : List Char) : Option MonsterFloat :=
  let s := n.foldl scanStep (0, 0, false)
  construct s.1 (10 ^ s.2.1) >>= normalize

/-- Embedding of the `number` case of `MonsterFloat.from`, which renders
the JS number with `toString()` and feeds the result to
`numberStringToBigFloatHelper`.  The binary-to-decimal rendering is host
behavior, so this embedding takes the number's canonical decimal string
(e.g. `(0.75).toString()` is `"0.75"` and `(-1.5).toString()` is
`"-1.5"`). -/
def fromNumber (canonical : List Char) : Option MonsterFloat :=
  numberStringToBigFloatHelper canonical

/-- Embedding of the `string` case of `MonsterFloat.from`: if
`Number(other)` is not NaN the string goes through the decimal scan;
otherwise it is split on `/`, a split of length other than 2 throws, and
inside the `try` block an empty part, a `BigInt` conversion failure or
the constructor's zero-denominator throw are all caught and rethrown as
a parse error.  The source binds the left part to local `denom` and the
right to local `num`, but passes them positionally, so the left part is
the constructed numerator and the right part the denominator. -/
def fromString (s : List Char) : Except MFError MonsterFloat :=
  if jsIsNumericString s then
    match numberStringToBigFloatHelper s with
    | some m => .ok m
    | none => .error .divisionByZero
  else
    match splitOnChar '/' s with
    | [p1, p2] =>
      if p1.isEmpty || p2.isEmpty then .error .parseError
      else
        match jsBigIntOfString p1, jsBigIntOfString p2 with
        | some a, some b =>
          match construct a b >>= normalize with
          | some m => .ok m
          | none => .error .parseError
        | _, _ => .error .parseError
    | _ => .error .parseError

/-- Embedding of `MonsterFloat.toFractionString`:
`` `${this._numerator}/${this._denominator}` ``. -/
def toFractionString (x : MonsterFloat) : List Char :=
  intToStr x.numerator ++ '/' :: intToStr x.denominator

/-- Embedding of the local `digits` helper of `toNumberString`:
`BigInt(int.toString().length)` (the length of the rendered bigint,
including a minus sign for negatives). -/
def jsDigits (i : Int) : Int := (intToStr i).length

/-- Embedding of the local `getNextCarry` helper of `toNumberString`:
`extraZeroes = digits(den-1n) - digits(precarry) + 1n`,
`nextCarry = precarry * 10n ** extraZeroes`.  JS `10n ** e` throws for
`e < 0n`; in every state the source reaches, `|precarry| < |den|` keeps
`extraZeroes` nonnegative, and the exponent is embedded as `e.toNat`. -/
def getNextCarry (den precarry : Int) : Int × Int :=
  let extraZeroes := jsDigits (den - 1) - jsDigits precarry + 1
  (precarry * 10 ^ extraZeroes.toNat, extraZeroes)

/-- Embedding of the `while (precision > 0)` long-division loop of
`toNumberString`.  The loop decrements the bigint `precision` by one per
iteration and otherwise only breaks on a zero remainder, so it is
embedded structurally with fuel `precision.toNat`.  Each iteration
pushes `extraZeroes - digits(nextDigit)` zero characters (none when that
count is not positive, matching the JS `for` loop), then the rendered
`nextDigit`. -/
def tnsLoop (den : Int) : Nat → Int → Int → List Char
  | 0, _, _ => []
  | fuel+1, carry, extraZeroes =>
    let nextDigit := carry.tdiv den
    let block := List.replicate (extraZeroes - jsDigits nextDigit).toNat '0' ++ intToStr nextDigit
    let nextRest := carry - nextDigit * den
    if nextRest = 0 then block
    else
      let c2 := getNextCarry den nextRest
      block ++ tnsLoop den fuel c2.1 c2.2

/-- The fractional-digit production of `toNumberString`, packaged by the
remainder that enters the loop: `tnsLoop` started on the carry and
zero-count pair that `getNextCarry` computes from `r` (this is exactly
how both the loop entry and every continuing iteration are formed). -/
def fracLoop (den r : Int) (fuel : Nat) : List Char :=
  tnsLoop den fuel (getNextCarry den r).1 (getNextCarry den r).2

/-- Embedding of `MonsterFloat.toNumberString` (the long-division
decimal renderer; default `precision` is `16n`): when the remainder is
zero or the precision budget is not positive, the integer quotient is
returned alone; otherwise the quotient, a dot, and the digits produced
by the loop. -/
def toNumberString (x : MonsterFloat) (precision : Int) : List Char :=
  let rest := x.numerator.tmod x.denominator
  if rest = 0 ∨ precision ≤ 0 then intToStr (x.numerator.tdiv x.denominator)
  else
    let c := getNextCarry x.denominator rest
    intToStr (x.numerator.tdiv x.denominator) ++ '.' :: tnsLoop x.denominator precision.toNat c.1 c.2

/-- Embedding of `MonsterFloat.add` with an operand that is already a
`MonsterFloat` (the `from` conversion is then the checked copy):
`(a*d + c*b) / (b*d)`, then normalize. -/
def add (x y : MonsterFloat) : Option MonsterFloat := do
  let o ← copy y
  let r ← construct (x.numerator * o.denominator + o.numerator * x.denominator)
    (x.denominator * o.denominator)
  normalize r

/-- Embedding of the protected `MonsterFloat.negate`:
`new MonsterFloat(-num, den)` (checked constructor, no normalize). -/
def negate (x : MonsterFloat) : Option MonsterFloat :=
  construct (-x.numerator) x.denominator

/-- Embedding of `MonsterFloat.subtract`: convert (copy) the operand,
negate it, and add. -/
def subtract (x y : MonsterFloat) : Option MonsterFloat := do
  let o ← copy y
  let n ← negate o
  add x n

/-- Embedding of `MonsterFloat.multiply`: `(a*c)/(b*d)`, then
normalize. -/
def multiply (x y : MonsterFloat) : Option MonsterFloat := do
  let o ← copy y
  let r ← construct (x.numerator * o.numerator) (x.denominator * o.denominator)
  normalize r

/-- Embedding of `MonsterFloat.divide`: `(a*d)/(b*c)`, then normalize.
The constructor check fires exactly when the new denominator `b*c` is
zero. -/
def divide (x y : MonsterFloat) : Option MonsterFloat := do
  let o ← copy y
  let r ← construct (x.numerator * o.denominator) (x.denominator * o.numerator)
  normalize r

/-- Embedding of `orderOperationHelper` from `src/bigfloat.js` with an
operand that is already a `MonsterFloat`: convert (copy) the operand and
apply the comparison to `this.num * other.den` and
`other.num * this.den`. -/
def orderOperationHelper (op : Int → Int → Bool) (x other : MonsterFloat) : Option Bool := do
  let o ← copy other
  pure (op (x.numerator * o.denominator) (o.numerator * x.denominator))

/-- Embedding of `MonsterFloat.isEqual` from `src/bigfloat.js`. -/
def isEqual (x y : MonsterFloat) : Option Bool :=
  orderOperationHelper (fun l r => l == r) x y

/-- Embedding of `MonsterFloat.isLessThan` from `src/bigfloat.js`. -/
def isLessThan (x y : MonsterFloat) : Option Bool :=
  orderOperationHelper (fun l r => decide (l < r)) x y

/-- Embedding of `MonsterFloat.isLessThanOrEqual` from
`src/bigfloat.js`. -/
def isLessThanOrEqual (x y : MonsterFloat) : Option Bool :=
  orderOperationHelper (fun l r => decide (l ≤ r)) x y

/-- Embedding of `MonsterFloat.isGreaterThan` from `src/bigfloat.js`. -/
def isGreaterThan (x y : MonsterFloat) : Option Bool :=
  orderOperationHelper (fun l r => decide (l > r)) x y

/-- Embedding of `MonsterFloat.isGreaterThanOrEqual` from
`src/bigfloat.js`. -/
def isGreaterThanOrEqual (x y : MonsterFloat) : Option Bool :=
  orderOperationHelper (fun l r => decide (l ≥ r)) x y

end MonsterFloat

/-- Modelled from the spec: a well-formed signed integer literal (an
optional sign followed by a nonempty run of decimal digits), the operand
shape the design document's parse-rejection clause calls an "integer". -/
def specIntegerLiteral (s : List Char) : Bool :=
  match s with
  | '+' :: ds => !ds.isEmpty && ds.all isDecDigit
  | '-' :: ds => !ds.isEmpty && ds.all isDecDigit
  | ds => !ds.isEmpty && ds.all isDecDigit

/-- Modelled from the spec: a well-formed decimal numeral (an optional
sign, then decimal digits with at most one dot and at least one digit
overall), the first input shape the design document's `ParseError`
clause accepts. -/
def specDecimalNumeral (s : List Char) : Bool :=
  let core := fun (t : List Char) =>
    let p := takeDigits t
    match p.2 with
    | [] => !p.1.isEmpty
    | '.' :: r => (!p.1.isEmpty || !r.isEmpty) && r.all isDecDigit
    | _ => false
  match s with
  | '+' :: t => core t
  | '-' :: t => core t
  | t => core t

/-- Modelled from the spec: a well-formed `"integer/integer"` fraction
string (exactly one slash, both operands well-formed integer literals),
the second input shape the design document's `ParseError` clause
accepts. -/
def specFractionLiteral (s : List Char) : Bool :=
  match splitOnChar '/' s with
  | [p1, p2] => specIntegerLiteral p1 && specIntegerLiteral p2
  | _ => false

/-- The exact success condition of the fraction branch of `fromString`:
the string splits on `/` into exactly two nonempty parts, both parts
convert under JS `BigInt(string)`, and the right part's value (the
constructed denominator) is nonzero. -/
def fractionParseOk (s : List Char) : Bool :=
  match splitOnChar '/' s with
  | [p1, p2] =>
    !p1.isEmpty && !p2.isEmpty &&
      (match jsBigIntOfString p1, jsBigIntOfString p2 with
       | some _, some b => decide (b ≠ 0)
       | _, _ => false)
  | _ => false


/-! ## Basic facts about the embedded helpers -/

theorem natAbs_tmod (a b : Int) : (a.tmod b).natAbs = a.natAbs % b.natAbs := by
  cases a <;> cases b <;> simp only [Int.tmod, Int.natAbs_neg] <;> rfl

theorem gcdJ_zero (a : Int) : MonsterMath.gcd a 0 = a := by
  unfold MonsterMath.gcd
  rfl

theorem gcdJ_step (a b r g : Int) (hb : ¬ b = 0) (hr : a.tmod b = r)
    (hg : MonsterMath.gcd b r = g) : MonsterMath.gcd a b = g := by
  unfold MonsterMath.gcd
  rw [dif_neg hb, hr, hg]

theorem gcd_natAbs (a b : Int) :
    (MonsterMath.gcd a b).natAbs = Nat.gcd a.natAbs b.natAbs := by
  unfold MonsterMath.gcd
  split
  · rename_i h
    subst h
    simp
  · rw [gcd_natAbs b (a.tmod b), natAbs_tmod, Nat.gcd_comm b.natAbs, ← Nat.gcd_rec,
      Nat.gcd_comm]
termination_by b.natAbs
decreasing_by
  rw [natAbs_tmod]
  exact Nat.mod_lt _ (Int.natAbs_pos.mpr (by assumption))

theorem gcd_nonneg (a b : Int) (ha : 0 ≤ a) (hb : 0 ≤ b) :
    0 ≤ MonsterMath.gcd a b := by
  unfold MonsterMath.gcd
  split
  · exact ha
  · exact gcd_nonneg b (a.tmod b) hb (Int.tmod_nonneg _ ha)
termination_by b.natAbs
decreasing_by
  rw [natAbs_tmod]
  exact Nat.mod_lt _ (Int.natAbs_pos.mpr (by assumption))

theorem gcd_ne_zero (a : Int) {b : Int} (hb : b ≠ 0) : MonsterMath.gcd a b ≠ 0 := by
  intro h
  have hch := gcd_natAbs a b
  rw [h] at hch
  simp only [Int.natAbs_zero] at hch
  exact hb (Int.natAbs_eq_zero.mp (Nat.gcd_eq_zero_iff.mp hch.symm).2)

theorem gcd_dvd_left (a b : Int) : MonsterMath.gcd a b ∣ a := by
  rw [← Int.natAbs_dvd_natAbs, gcd_natAbs]
  exact Nat.gcd_dvd_left _ _

theorem gcd_dvd_right (a b : Int) : MonsterMath.gcd a b ∣ b := by
  rw [← Int.natAbs_dvd_natAbs, gcd_natAbs]
  exact Nat.gcd_dvd_right _ _

theorem construct_eq_none_iff (n d : Int) :
    MonsterFloat.construct n d = none ↔ d = 0 := by
  unfold MonsterFloat.construct
  split <;> simp_all

theorem construct_some (n d : Int) (hd : d ≠ 0) :
    MonsterFloat.construct n d = some ⟨n, d⟩ := by
  unfold MonsterFloat.construct
  rw [if_neg hd]

theorem normalize_eval (x : MonsterFloat) (g n d : Int)
    (hg : MonsterMath.gcd x.numerator x.denominator = g)
    (hn : x.numerator.tdiv g = n) (hd : x.denominator.tdiv g = d)
    (hdz : ¬ d = 0) : x.normalize = some ⟨n, d⟩ := by
  simp only [MonsterFloat.normalize]
  rw [hg, hn, hd]
  simp only [MonsterFloat.construct, if_neg hdz]

theorem normalize_spec (x : MonsterFloat) (hd : x.denominator ≠ 0) :
    ∃ y, x.normalize = some y ∧ y.denominator ≠ 0 ∧
      y.numerator * x.denominator = x.numerator * y.denominator := by
  have hg : MonsterMath.gcd x.numerator x.denominator ≠ 0 := gcd_ne_zero _ hd
  have hdvn : MonsterMath.gcd x.numerator x.denominator ∣ x.numerator := gcd_dvd_left _ _
  have hdvd : MonsterMath.gcd x.numerator x.denominator ∣ x.denominator := gcd_dvd_right _ _
  set g := MonsterMath.gcd x.numerator x.denominator with hgdef
  have htn : x.numerator.tdiv g = x.numerator / g := Int.tdiv_eq_ediv_of_dvd hdvn
  have htd : x.denominator.tdiv g = x.denominator / g := Int.tdiv_eq_ediv_of_dvd hdvd
  have hden : x.denominator / g ≠ 0 := by
    intro hz
    have := Int.mul_ediv_cancel' hdvd
    rw [hz, mul_zero] at this
    exact hd this.symm
  refine ⟨⟨x.numerator.tdiv g, x.denominator.tdiv g⟩, ?_, ?_, ?_⟩
  · exact normalize_eval x g _ _ rfl rfl rfl (by rw [htd]; exact hden)
  · rw [htd]; exact hden
  · show x.numerator.tdiv g * x.denominator = x.numerator * x.denominator.tdiv g
    rw [htn, htd]
    calc x.numerator / g * x.denominator
        = x.numerator / g * (g * (x.denominator / g)) := by rw [Int.mul_ediv_cancel' hdvd]
      _ = g * (x.numerator / g) * (x.denominator / g) := by ring
      _ = x.numerator * (x.denominator / g) := by rw [Int.mul_ediv_cancel' hdvn]

theorem copy_some (y : MonsterFloat) (hy : y.denominator ≠ 0) :
    MonsterFloat.copy y = some ⟨y.numerator, y.denominator⟩ :=
  construct_some _ _ hy

theorem add_spec (x y : MonsterFloat) (hx : x.denominator ≠ 0)
    (hy : y.denominator ≠ 0) :
    ∃ z, MonsterFloat.add x y = some z ∧ z.denominator ≠ 0 := by
  obtain ⟨z, hz, hzd, _⟩ :=
    normalize_spec ⟨x.numerator * y.denominator + y.numerator * x.denominator,
      x.denominator * y.denominator⟩ (mul_ne_zero hx hy)
  refine ⟨z, ?_, hzd⟩
  simp only [MonsterFloat.add, copy_some y hy, construct_some _ _ (mul_ne_zero hx hy),
    Option.bind_eq_bind, Option.some_bind]
  exact hz

theorem negate_spec (x : MonsterFloat) (hx : x.denominator ≠ 0) :
    MonsterFloat.negate x = some ⟨-x.numerator, x.denominator⟩ :=
  construct_some _ _ hx

theorem subtract_spec (x y : MonsterFloat) (hx : x.denominator ≠ 0)
    (hy : y.denominator ≠ 0) :
    ∃ z, MonsterFloat.subtract x y = some z ∧ z.denominator ≠ 0 := by
  obtain ⟨z, hz, hzd⟩ := add_spec x ⟨-y.numerator, y.denominator⟩ hx hy
  refine ⟨z, ?_, hzd⟩
  simp only [MonsterFloat.subtract, copy_some y hy, Option.bind_eq_bind, Option.some_bind,
    negate_spec ⟨y.numerator, y.denominator⟩ hy]
  exact hz

theorem multiply_spec (x y : MonsterFloat) (hx : x.denominator ≠ 0)
    (hy : y.denominator ≠ 0) :
    ∃ z, MonsterFloat.multiply x y = some z ∧ z.denominator ≠ 0 := by
  obtain ⟨z, hz, hzd, _⟩ :=
    normalize_spec ⟨x.numerator * y.numerator, x.denominator * y.denominator⟩
      (mul_ne_zero hx hy)
  refine ⟨z, ?_, hzd⟩
  simp only [MonsterFloat.multiply, copy_some y hy, construct_some _ _ (mul_ne_zero hx hy),
    Option.bind_eq_bind, Option.some_bind]
  exact hz

theorem divide_iff_none (x y : MonsterFloat) (hx : x.denominator ≠ 0)
    (hy : y.denominator ≠ 0) :
    MonsterFloat.divide x y = none ↔ y.numerator = 0 := by
  simp only [MonsterFloat.divide, copy_some y hy, Option.bind_eq_bind, Option.some_bind]
  by_cases hz : y.numerator = 0
  · rw [hz]
    simp [MonsterFloat.construct]
  · rw [construct_some _ _ (mul_ne_zero hx hz), Option.some_bind]
    obtain ⟨z, hzeq, _, _⟩ :=
      normalize_spec ⟨x.numerator * y.denominator, x.denominator * y.numerator⟩
        (mul_ne_zero hx hz)
    rw [hzeq]
    simp [hz]

/-- C9 counterexample: the claim says `MonsterMath.gcd` returns the
non-negative greatest common divisor for all bigints; but
`gcd(-4n, 0n)` returns `-4n` (the first argument unchanged), which is
negative, whereas the non-negative gcd of `-4` and `0` is `4`. -/
theorem claim_C9_counterexample :
    MonsterMath.gcd (-4) 0 = -4 ∧ MonsterMath.gcd (-4) 0 < 0 := by
  constructor
  · exact gcdJ_zero (-4)
  · rw [gcdJ_zero (-4)]
    decide

/-- C9 (amended): `MonsterMath.gcd` terminates on all bigint inputs
(it is a total function of this development) and returns an integer
whose absolute value is the greatest common divisor of the absolute
values of its arguments; when both arguments are nonnegative the result
is exactly the non-negative greatest common divisor, so in particular
`gcd(0, 0) = 0`.  For mixed-sign or negative inputs the result can be
negative (see the counterexample). -/
theorem claim_C9 : ∀ a b : Int,
    (MonsterMath.gcd a b).natAbs = Nat.gcd a.natAbs b.natAbs ∧
    (0 ≤ a → 0 ≤ b → MonsterMath.gcd a b = (Nat.gcd a.natAbs b.natAbs : Int)) := by
  intro a b
  refine ⟨gcd_natAbs a b, fun ha hb => ?_⟩
  rw [← gcd_natAbs a b]
  exact (Int.natAbs_of_nonneg (gcd_nonneg a b ha hb)).symm

/-- Witness for C9 at the concrete input `(4, 6)`. -/
theorem claim_C9_witness :
    (0 : Int) ≤ 4 ∧ MonsterMath.gcd 4 6 = (Nat.gcd (Int.natAbs 4) (Int.natAbs 6) : Int) :=
  ⟨by decide, (claim_C9 4 6).2 (by decide) (by decide)⟩

/-- C3: raw construction fails (throws "Cannot divide by zero") exactly
when the denominator is zero, and `divide` (on operands whose own
denominators are nonzero) fails exactly when the divisor's numerator is
zero; otherwise both return a `MonsterFloat`. -/
theorem claim_C3 :
    (∀ n d : Int, MonsterFloat.construct n d = none ↔ d = 0) ∧
    (∀ x y : MonsterFloat, x.denominator ≠ 0 → y.denominator ≠ 0 →
      (MonsterFloat.divide x y = none ↔ y.numerator = 0)) :=
  ⟨construct_eq_none_iff, divide_iff_none⟩

/-- Witness for C3: `Rational(5, 0)` fails, and `(5/1).divide(0/1)`
fails. -/
theorem claim_C3_witness :
    MonsterFloat.construct 5 0 = none ∧
    MonsterFloat.divide ⟨5, 1⟩ ⟨0, 1⟩ = none :=
  ⟨(claim_C3.1 5 0).mpr rfl,
    (claim_C3.2 ⟨5, 1⟩ ⟨0, 1⟩ (by decide) (by decide)).mpr rfl⟩

/-- C10: on valid rationals (nonzero denominators) the operations
`add`, `subtract`, `multiply`, `negate` and `normalize` never hit the
constructor's zero-denominator throw, and every result they produce
again has a nonzero denominator. -/
theorem claim_C10 : ∀ x y : MonsterFloat, x.denominator ≠ 0 → y.denominator ≠ 0 →
    (∃ z, MonsterFloat.add x y = some z ∧ z.denominator ≠ 0) ∧
    (∃ z, MonsterFloat.subtract x y = some z ∧ z.denominator ≠ 0) ∧
    (∃ z, MonsterFloat.multiply x y = some z ∧ z.denominator ≠ 0) ∧
    (∃ z, MonsterFloat.negate x = some z ∧ z.denominator ≠ 0) ∧
    (∃ z, MonsterFloat.normalize x = some z ∧ z.denominator ≠ 0) := by
  intro x y hx hy
  obtain ⟨z5, h5, h5d, _⟩ := normalize_spec x hx
  exact ⟨add_spec x y hx hy, subtract_spec x y hx hy, multiply_spec x y hx hy,
    ⟨⟨-x.numerator, x.denominator⟩, negate_spec x hx, hx⟩, ⟨z5, h5, h5d⟩⟩

/-- Witness for C10 at the concrete inputs `1/2` and `1/3`. -/
theorem claim_C10_witness :
    (∃ z, MonsterFloat.add ⟨1, 2⟩ ⟨1, 3⟩ = some z ∧ z.denominator ≠ 0) ∧
    (∃ z, MonsterFloat.subtract ⟨1, 2⟩ ⟨1, 3⟩ = some z ∧ z.denominator ≠ 0) ∧
    (∃ z, MonsterFloat.multiply ⟨1, 2⟩ ⟨1, 3⟩ = some z ∧ z.denominator ≠ 0) ∧
    (∃ z, MonsterFloat.negate ⟨1, 2⟩ = some z ∧ z.denominator ≠ 0) ∧
    (∃ z, MonsterFloat.normalize ⟨1, 2⟩ = some z ∧ z.denominator ≠ 0) :=
  claim_C10 ⟨1, 2⟩ ⟨1, 3⟩ (by decide) (by decide)

/-! ## Decimal digit strings -/

theorem digitChar_spec : ∀ k < 10,
    isDecDigit (Char.ofNat (48 + k)) = true ∧ (Char.ofNat (48 + k)).toNat = 48 + k := by
  decide

theorem digitsVal_append_singleton (l : List Char) (c : Char) :
    digitsVal (l ++ [c]) = 10 * digitsVal l + (c.toNat - 48) := by
  simp [digitsVal, List.foldl_append]

theorem natToDigitsAux_spec : ∀ (n fuel : Nat), n < fuel →
    natToDigitsAux fuel n ≠ [] ∧
    (∀ c ∈ natToDigitsAux fuel n, isDecDigit c = true) ∧
    digitsVal (natToDigitsAux fuel n) = n ∧
    n < 10 ^ (natToDigitsAux fuel n).length ∧
    (1 ≤ n → 10 ^ ((natToDigitsAux fuel n).length - 1) ≤ n) := by
  intro n fuel h
  match fuel with
  | 0 => omega
  | f + 1 =>
    rw [natToDigitsAux]
    by_cases h10 : n < 10
    · rw [if_pos h10]
      refine ⟨by simp, ?_, ?_, by simpa using h10, fun h1 => by simpa using h1⟩
      · intro c hc
        simp only [List.mem_singleton] at hc
        subst hc
        exact (digitChar_spec n h10).1
      · show digitsVal ([] ++ [Char.ofNat (48 + n)]) = n
        rw [digitsVal_append_singleton, (digitChar_spec n h10).2]
        simp [digitsVal]
    · rw [if_neg h10]
      have hrec := natToDigitsAux_spec (n / 10) f (by omega)
      obtain ⟨hne, hdig, hval, hlt, hge⟩ := hrec
      have hmod : n % 10 < 10 := Nat.mod_lt _ (by omega)
      have hdm := Nat.div_add_mod n 10
      have hcd := digitChar_spec (n % 10) hmod
      refine ⟨by simp, ?_, ?_, ?_, ?_⟩
      · intro c hc
        rw [List.mem_append] at hc
        rcases hc with hc | hc
        · exact hdig c hc
        · simp only [List.mem_singleton] at hc
          subst hc
          exact hcd.1
      · rw [digitsVal_append_singleton, hval, hcd.2]
        omega
      · rw [List.length_append, List.length_singleton, pow_succ]
        omega
      · intro _
        have hL : 1 ≤ (natToDigitsAux f (n / 10)).length := List.length_pos.mpr hne
        have h1 : 1 ≤ n / 10 := by omega
        have hp := hge h1
        rw [List.length_append, List.length_singleton]
        have hLs : (natToDigitsAux f (n / 10)).length + 1 - 1 = 
            ((natToDigitsAux f (n / 10)).length - 1) + 1 := by omega
        rw [hLs, pow_succ]
        have : 10 ^ ((natToDigitsAux f (n / 10)).length - 1) * 10 ≤ (n / 10) * 10 :=
          Nat.mul_le_mul_right 10 hp
        omega
termination_by n _ _ => n
decreasing_by
  exact Nat.div_lt_self (by omega) (by omega)

theorem natToDigits_ne_nil (n : Nat) : natToDigits n ≠ [] :=
  (natToDigitsAux_spec n (n+1) (by omega)).1

theorem natToDigits_all_digits (n : Nat) : ∀ c ∈ natToDigits n, isDecDigit c = true :=
  (natToDigitsAux_spec n (n+1) (by omega)).2.1

theorem digitsVal_natToDigits (n : Nat) : digitsVal (natToDigits n) = n :=
  (natToDigitsAux_spec n (n+1) (by omega)).2.2.1

theorem natToDigits_lt (n : Nat) : n < 10 ^ (natToDigits n).length :=
  (natToDigitsAux_spec n (n+1) (by omega)).2.2.2.1

theorem natToDigits_le (n : Nat) (h1 : 1 ≤ n) :
    10 ^ ((natToDigits n).length - 1) ≤ n :=
  (natToDigitsAux_spec n (n+1) (by omega)).2.2.2.2 h1

theorem natToDigits_length_pos (n : Nat) : 1 ≤ (natToDigits n).length :=
  List.length_pos.mpr (natToDigits_ne_nil n)

theorem natToDigits_length_mono {m n : Nat} (h : m ≤ n) :
    (natToDigits m).length ≤ (natToDigits n).length := by
  by_cases hm : 1 ≤ m
  · have h1 := natToDigits_le m hm
    have h2 := natToDigits_lt n
    have h3 : 10 ^ ((natToDigits m).length - 1) < 10 ^ (natToDigits n).length := by
      omega
    have h4 := (Nat.pow_lt_pow_iff_right (a := 10) (by omega)).mp h3
    omega
  · have := natToDigits_length_pos n
    have hm0 : m = 0 := by omega
    subst hm0
    simpa [natToDigits, natToDigitsAux] using this

theorem natToDigits_length_le {d : Nat} (e : Nat) (he : 1 ≤ e) (hd : d < 10 ^ e) :
    (natToDigits d).length ≤ e := by
  by_cases h1 : 1 ≤ d
  · have hge := natToDigits_le d h1
    by_contra hc
    have : 10 ^ e ≤ 10 ^ ((natToDigits d).length - 1) :=
      Nat.pow_le_pow_right (by omega) (by omega)
    omega
  · have hd0 : d = 0 := by omega
    subst hd0
    simpa [natToDigits, natToDigitsAux] using he

/-! ## Character classes, trimming, splitting -/

theorem ws_false_of_digit {c : Char} (h : isDecDigit c = true) :
    isJSWhitespace c = false := by
  unfold isDecDigit at h
  unfold isJSWhitespace
  simp only [Bool.and_eq_true, decide_eq_true_eq] at h
  simp only [Bool.or_eq_false_iff, decide_eq_false_iff_not]
  omega

theorem dropWhile_eq_self_of_all {p : Char → Bool} {s : List Char}
    (h : ∀ c ∈ s, p c = false) : s.dropWhile p = s := by
  cases s with
  | nil => rfl
  | cons a as => rw [List.dropWhile_cons, h a (List.mem_cons_self a as)]; simp

theorem jsTrim_eq_self {s : List Char} (h : ∀ c ∈ s, isJSWhitespace c = false) :
    jsTrim s = s := by
  unfold jsTrim
  rw [dropWhile_eq_self_of_all h,
    dropWhile_eq_self_of_all (fun c hc => h c (List.mem_reverse.mp hc)),
    List.reverse_reverse]

theorem mem_dropWhile_of_mem {p : Char → Bool} {c : Char} :
    ∀ {s : List Char}, c ∈ s → p c = false → c ∈ s.dropWhile p := by
  intro s
  induction s with
  | nil => intro h _; exact absurd h (List.not_mem_nil c)
  | cons a as ih =>
    intro hm hc
    rw [List.dropWhile_cons]
    by_cases ha : p a = true
    · rw [if_pos ha]
      rcases List.mem_cons.mp hm with he | hm2
      · subst he; rw [hc] at ha; exact absurd ha (by simp)
      · exact ih hm2 hc
    · rw [if_neg ha]
      exact hm

theorem mem_jsTrim {c : Char} {s : List Char} (hm : c ∈ s)
    (hc : isJSWhitespace c = false) : c ∈ jsTrim s := by
  unfold jsTrim
  rw [List.mem_reverse]
  exact mem_dropWhile_of_mem (List.mem_reverse.mpr (mem_dropWhile_of_mem hm hc)) hc

theorem takeDigits_spec : ∀ s : List Char,
    (takeDigits s).1 ++ (takeDigits s).2 = s ∧
    (∀ c ∈ (takeDigits s).1, isDecDigit c = true) := by
  intro s
  induction s with
  | nil => exact ⟨rfl, by simp [takeDigits]⟩
  | cons a as ih =>
    rw [takeDigits]
    by_cases ha : isDecDigit a = true
    · rw [if_pos ha]
      refine ⟨by simpa using ih.1, ?_⟩
      intro c hc
      rcases List.mem_cons.mp hc with he | hm
      · subst he; exact ha
      · exact ih.2 c hm
    · rw [if_neg ha]
      exact ⟨rfl, by simp⟩

theorem all_false_of_mem (p : Char → Bool) {c : Char} {l : List Char}
    (hm : c ∈ l) (hc : p c = false) : l.all p = false := by
  rw [List.all_eq_false]
  exact ⟨c, hm, by simp [hc]⟩

theorem expTail_slash {u : List Char} (h : '/' ∈ u) : expTail u = false := by
  cases u with
  | nil => exact absurd h (List.not_mem_nil _)
  | cons c cs =>
    simp only [expTail]
    by_cases hce : c = 'e' ∨ c = 'E'
    · have hsl : '/' ∈ cs := by
        rcases List.mem_cons.mp h with he | hm
        · rcases hce with h1 | h1 <;> subst h1 <;> exact absurd he.symm (by decide)
        · exact hm
      have hfirst : (c = 'e' || c = 'E') = true := by
        rcases hce with h1 | h1 <;> subst h1 <;> decide
      rw [hfirst, Bool.true_and]
      split
      · rename_i ds
        have hin : '/' ∈ ds := by
          rcases List.mem_cons.mp hsl with he | hm
          · exact absurd he (by decide)
          · exact hm
        rw [all_false_of_mem isDecDigit hin (by decide)]
        simp
      · rename_i ds
        have hin : '/' ∈ ds := by
          rcases List.mem_cons.mp hsl with he | hm
          · exact absurd he (by decide)
          · exact hm
        rw [all_false_of_mem isDecDigit hin (by decide)]
        simp
      · rw [all_false_of_mem isDecDigit hsl (by decide)]
        simp
    · have h1 : (c = 'e' : Bool) = false := by
        simp only [decide_eq_false_iff_not]
        intro he; exact hce (Or.inl he)
      have h2 : (c = 'E' : Bool) = false := by
        simp only [decide_eq_false_iff_not]
        intro he; exact hce (Or.inr he)
      rw [h1, h2]
      simp

theorem strUnsignedDecimal_slash {s : List Char} (h : '/' ∈ s) :
    strUnsignedDecimal s = false := by
  simp only [strUnsignedDecimal]
  rw [Bool.or_eq_false_iff]
  constructor
  · simp only [beq_eq_false_iff_ne, ne_eq]
    intro he
    subst he
    exact absurd h (by decide)
  · obtain ⟨hsp, hdig⟩ := takeDigits_spec s
    have hs2 : '/' ∈ (takeDigits s).2 := by
      rcases List.mem_append.mp (by rw [hsp]; exact h) with h1 | h2
      · exact absurd (hdig _ h1) (by decide)
      · exact h2
    split
    · rename_i r2 heq
      have hr2 : '/' ∈ r2 := by
        rw [heq] at hs2
        rcases List.mem_cons.mp hs2 with he | hm
        · exact absurd he (by decide)
        · exact hm
      obtain ⟨hsp2, hdig2⟩ := takeDigits_spec r2
      have hq2 : '/' ∈ (takeDigits r2).2 := by
        rcases List.mem_append.mp (by rw [hsp2]; exact hr2) with h1 | h2
        · exact absurd (hdig2 _ h1) (by decide)
        · exact h2
      rw [expTail_slash hq2]
      simp
    · rw [expTail_slash hs2]
      simp

theorem nonDecimalIntLit_slash {s : List Char} (h : '/' ∈ s) :
    nonDecimalIntLit s = false := by
  simp only [nonDecimalIntLit]
  split
  · rename_i x ds
    rcases List.mem_cons.mp h with h0 | h1
    · exact absurd h0 (by decide)
    · rcases List.mem_cons.mp h1 with hx | hds
      · subst hx
        simp
      · rw [all_false_of_mem isHexDigit hds (by decide),
          all_false_of_mem isOctDigit hds (by decide),
          all_false_of_mem isBinDigit hds (by decide)]
        simp
  · rfl

theorem strNumericLiteral_slash {s : List Char} (h : '/' ∈ s) :
    strNumericLiteral s = false := by
  simp only [strNumericLiteral]
  split
  · rename_i r
    apply strUnsignedDecimal_slash
    rcases List.mem_cons.mp h with he | hm
    · exact absurd he (by decide)
    · exact hm
  · rename_i r
    apply strUnsignedDecimal_slash
    rcases List.mem_cons.mp h with he | hm
    · exact absurd he (by decide)
    · exact hm
  · rw [strUnsignedDecimal_slash h, nonDecimalIntLit_slash h]
    rfl

theorem jsIsNumericString_slash {s : List Char} (h : '/' ∈ s) :
    jsIsNumericString s = false := by
  have ht : '/' ∈ jsTrim s := mem_jsTrim h (by decide)
  simp only [jsIsNumericString]
  rw [strNumericLiteral_slash ht]
  have hne : (jsTrim s).isEmpty = false := by
    apply Bool.eq_false_iff.mpr
    intro he
    rw [List.isEmpty_iff.mp he] at ht
    exact absurd ht (List.not_mem_nil _)
  rw [hne]
  rfl

theorem splitOnChar_ne_nil (sep : Char) (s : List Char) : splitOnChar sep s ≠ [] := by
  cases s with
  | nil => simp [splitOnChar]
  | cons c cs =>
    simp only [splitOnChar]
    split
    · simp
    · split <;> simp

theorem splitOnChar_not_mem {sep : Char} : ∀ {s : List Char}, sep ∉ s →
    splitOnChar sep s = [s] := by
  intro s
  induction s with
  | nil => intro _; rfl
  | cons c cs ih =>
    intro h
    have hc : ¬ c = sep := by
      intro he
      exact h (by rw [he]; exact List.mem_cons_self _ _)
    simp only [splitOnChar, ih (fun hm => h (List.mem_cons_of_mem c hm))]
    rw [if_neg hc]

theorem splitOnChar_append {sep : Char} : ∀ {a : List Char} (b : List Char), sep ∉ a →
    splitOnChar sep (a ++ sep :: b) = a :: splitOnChar sep b := by
  intro a
  induction a with
  | nil =>
    intro b _
    rw [List.nil_append]
    simp only [splitOnChar]
    rcases hsp : splitOnChar sep b with _ | ⟨p, ps⟩
    · exact absurd hsp (splitOnChar_ne_nil sep b)
    · simp
  | cons c cs ih =>
    intro b h
    have hc : ¬ c = sep := by
      intro he
      exact h (by rw [he]; exact List.mem_cons_self _ _)
    rw [List.cons_append]
    simp only [splitOnChar, ih b (fun hm => h (List.mem_cons_of_mem c hm))]
    rw [if_neg hc]

theorem jsBigIntOfString_digits (ds : List Char) (hne : ds ≠ [])
    (hdig : ∀ c ∈ ds, isDecDigit c = true) :
    jsBigIntOfString ds = some (digitsVal ds : Int) := by
  have htrim : jsTrim ds = ds := jsTrim_eq_self (fun c hc => ws_false_of_digit (hdig c hc))
  simp only [jsBigIntOfString, htrim]
  rw [if_neg (fun he => hne (List.isEmpty_iff.mp he))]
  split
  · exact absurd (hdig 'x' (by simp)) (by decide)
  · exact absurd (hdig 'X' (by simp)) (by decide)
  · exact absurd (hdig 'o' (by simp)) (by decide)
  · exact absurd (hdig 'O' (by simp)) (by decide)
  · exact absurd (hdig 'b' (by simp)) (by decide)
  · exact absurd (hdig 'B' (by simp)) (by decide)
  · exact absurd (hdig '+' (by simp)) (by decide)
  · exact absurd (hdig '-' (by simp)) (by decide)
  · rw [if_pos (List.all_eq_true.mpr hdig)]

theorem jsBigIntOfString_intToStr (k : Int) : jsBigIntOfString (intToStr k) = some k := by
  by_cases hk : k < 0
  · have hstr : intToStr k = '-' :: natToDigits k.natAbs := by
      unfold intToStr
      rw [if_pos hk]
    rw [hstr]
    have hdigs := natToDigits_all_digits k.natAbs
    have hnen := natToDigits_ne_nil k.natAbs
    have htrim : jsTrim ('-' :: natToDigits k.natAbs) = '-' :: natToDigits k.natAbs := by
      apply jsTrim_eq_self
      intro c hc
      rcases List.mem_cons.mp hc with he | hm
      · subst he; decide
      · exact ws_false_of_digit (hdigs c hm)
    simp only [jsBigIntOfString, htrim]
    rw [if_neg (by simp)]
    rw [if_pos (by
      rw [Bool.and_eq_true]
      exact ⟨by simpa [List.isEmpty_iff] using hnen, List.all_eq_true.mpr hdigs⟩)]
    rw [digitsVal_natToDigits]
    have hval : -((k.natAbs : Nat) : Int) = k := by omega
    rw [hval]
  · have hstr : intToStr k = natToDigits k.natAbs := by
      unfold intToStr
      rw [if_neg hk]
    rw [hstr, jsBigIntOfString_digits _ (natToDigits_ne_nil _) (natToDigits_all_digits _),
      digitsVal_natToDigits]
    have hval : ((k.natAbs : Nat) : Int) = k := by omega
    rw [hval]

theorem intToStr_no_slash (k : Int) : '/' ∉ intToStr k := by
  intro hm
  unfold intToStr at hm
  by_cases hk : k < 0
  · rw [if_pos hk] at hm
    rcases List.mem_cons.mp hm with he | hmm
    · exact absurd he (by decide)
    · exact absurd (natToDigits_all_digits _ _ hmm) (by decide)
  · rw [if_neg hk] at hm
    exact absurd (natToDigits_all_digits _ _ hm) (by decide)

theorem intToStr_ne_nil (k : Int) : intToStr k ≠ [] := by
  unfold intToStr
  split
  · simp
  · exact natToDigits_ne_nil _

/-- C7: parsing back the `"numerator/denominator"` rendering of any
valid `MonsterFloat` succeeds and yields the same rational value.  The
slash-containing string is never numeric for `Number`, the split
recovers the two integer renderings, `BigInt` parses them back exactly,
and the final `normalize` preserves the value. -/
theorem claim_C7 : ∀ r : MonsterFloat, r.denominator ≠ 0 →
    ∃ m, MonsterFloat.fromString (MonsterFloat.toFractionString r) = Except.ok m ∧
      m.numerator * r.denominator = r.numerator * m.denominator := by
  intro r hd
  have hslash : '/' ∈ MonsterFloat.toFractionString r := by
    unfold MonsterFloat.toFractionString
    exact List.mem_append.mpr (Or.inr (List.mem_cons_self _ _))
  have hnum : jsIsNumericString (MonsterFloat.toFractionString r) = false :=
    jsIsNumericString_slash hslash
  have hsplit : splitOnChar '/' (MonsterFloat.toFractionString r)
      = [intToStr r.numerator, intToStr r.denominator] := by
    unfold MonsterFloat.toFractionString
    rw [splitOnChar_append _ (intToStr_no_slash _), splitOnChar_not_mem (intToStr_no_slash _)]
  obtain ⟨m, hm, hmden, hmval⟩ := normalize_spec ⟨r.numerator, r.denominator⟩ hd
  refine ⟨m, ?_, hmval⟩
  simp only [MonsterFloat.fromString]
  rw [if_neg (by simp [hnum])]
  simp only [hsplit]
  have hie1 : (intToStr r.numerator).isEmpty = false := by
    apply Bool.eq_false_iff.mpr
    intro he
    exact intToStr_ne_nil _ (List.isEmpty_iff.mp he)
  have hie2 : (intToStr r.denominator).isEmpty = false := by
    apply Bool.eq_false_iff.mpr
    intro he
    exact intToStr_ne_nil _ (List.isEmpty_iff.mp he)
  rw [if_neg (by simp [hie1, hie2])]
  rw [jsBigIntOfString_intToStr, jsBigIntOfString_intToStr]
  show (match MonsterFloat.construct r.numerator r.denominator >>= MonsterFloat.normalize with
    | some m' => Except.ok m'
    | none => Except.error MFError.parseError) = Except.ok m
  rw [construct_some _ _ hd]
  show (match MonsterFloat.normalize ⟨r.numerator, r.denominator⟩ with
    | some m' => Except.ok m'
    | none => Except.error MFError.parseError) = Except.ok m
  rw [hm]

/-- Witness for C7 at the concrete input `2/4` (which re-parses to the
reduced but value-equal `1/2`). -/
theorem claim_C7_witness :
    ∃ m, MonsterFloat.fromString (MonsterFloat.toFractionString ⟨2, 4⟩) = Except.ok m ∧
      m.numerator * (4 : Int) = (2 : Int) * m.denominator :=
  claim_C7 ⟨2, 4⟩ (by decide)

theorem numberStringToBigFloatHelper_spec (s : List Char) :
    ∃ m, MonsterFloat.numberStringToBigFloatHelper s = some m ∧ m.denominator ≠ 0 := by
  have hpow : ((10 : Int) ^ (s.foldl MonsterFloat.scanStep (0, 0, false)).2.1) ≠ 0 :=
    pow_ne_zero _ (by decide)
  obtain ⟨m, hm, hd, _⟩ :=
    normalize_spec ⟨(s.foldl MonsterFloat.scanStep (0, 0, false)).1,
      10 ^ (s.foldl MonsterFloat.scanStep (0, 0, false)).2.1⟩ hpow
  refine ⟨m, ?_, hd⟩
  simp only [MonsterFloat.numberStringToBigFloatHelper]
  rw [construct_some _ _ hpow]
  exact hm

theorem fromString_numeric {s : List Char} (h : jsIsNumericString s = true) :
    ∃ m, MonsterFloat.fromString s = Except.ok m := by
  obtain ⟨m, hm, _⟩ := numberStringToBigFloatHelper_spec s
  refine ⟨m, ?_⟩
  simp only [MonsterFloat.fromString]
  rw [if_pos h, hm]

/-- C4 counterexample: the empty string is neither a well-formed decimal
numeral nor a well-formed integer/integer fraction, yet `from("")` does
not raise: JS `Number("")` is `0` (not NaN), so the digit scan runs on
zero characters and produces `0/1`. -/
theorem claim_C4_counterexample :
    MonsterFloat.fromString [] = Except.ok ⟨0, 1⟩ ∧
    specDecimalNumeral [] = false ∧ specFractionLiteral [] = false := by
  refine ⟨?_, by decide, by decide⟩
  simp only [MonsterFloat.fromString]
  rw [if_pos (by decide)]
  have hh : MonsterFloat.numberStringToBigFloatHelper [] = some ⟨0, 1⟩ := by
    simp only [MonsterFloat.numberStringToBigFloatHelper, List.foldl_nil]
    show MonsterFloat.construct 0 1 >>= MonsterFloat.normalize = some ⟨0, 1⟩
    rw [construct_some 0 1 (by decide)]
    exact normalize_eval ⟨0, 1⟩ 1 0 1
      (gcdJ_step 0 1 0 1 (by decide) (by decide) (gcdJ_zero 1))
      (by decide) (by decide) (by decide)
  rw [hh]

/-- C4 (amended): `from(string)` raises exactly when the string is not
accepted by JS `Number` conversion (it would be NaN) and also fails the
fraction branch (not exactly one `/`, an empty part, a part `BigInt`
rejects, or a zero right part, the last raising inside the same `try`
and being rewrapped); every such error is the parse error, never the
bare division-by-zero error.  In particular `from("1/2/3")` and
`from("/5")` raise the parse error.  Strings accepted by `Number` —
including the empty string, whitespace, exponent and hex forms — never
raise even when they are not well-formed decimal numerals. -/
theorem claim_C4 :
    (∀ s : List Char,
      (MonsterFloat.fromString s = Except.error MFError.parseError ↔
        jsIsNumericString s = false ∧ fractionParseOk s = false) ∧
      MonsterFloat.fromString s ≠ Except.error MFError.divisionByZero) ∧
    MonsterFloat.fromString "1/2/3".toList = Except.error MFError.parseError ∧
    MonsterFloat.fromString "/5".toList = Except.error MFError.parseError := by
  refine ⟨?_, rfl, rfl⟩
  intro s
  by_cases hnum : jsIsNumericString s = true
  · obtain ⟨m, hm⟩ := fromString_numeric hnum
    rw [hm]
    refine ⟨⟨fun h => absurd h (by simp), ?_⟩, by simp⟩
    rintro ⟨h1, _⟩
    rw [hnum] at h1
    exact absurd h1 (by simp)
  · have hnf : jsIsNumericString s = false := Bool.eq_false_iff.mpr hnum
    simp only [MonsterFloat.fromString, fractionParseOk]
    rw [if_neg (by simp [hnf])]
    rcases hps : splitOnChar '/' s with _ | ⟨p1, rest⟩
    · simp [hnf]
    · rcases rest with _ | ⟨p2, rest2⟩
      · simp [hnf]
      · rcases rest2 with _ | ⟨p3, rest3⟩
        · by_cases hpe : (p1.isEmpty || p2.isEmpty) = true
          · rcases Bool.or_eq_true_iff.mp hpe with h | h <;> simp [hnf, h]
          · simp only [Bool.or_eq_true, not_or, Bool.not_eq_true] at hpe
            obtain ⟨h1, h2⟩ := hpe
            rcases hb1 : jsBigIntOfString p1 with _ | a
            · simp [hb1, h1, h2, hnf]
            · rcases hb2 : jsBigIntOfString p2 with _ | b
              · simp [hb1, hb2, h1, h2, hnf]
              · by_cases hb0 : b = 0
                · subst hb0
                  simp [hb1, hb2, h1, h2, hnf, MonsterFloat.construct]
                · obtain ⟨z, hz, _, _⟩ := normalize_spec ⟨a, b⟩ hb0
                  simp [hb1, hb2, h1, h2, hnf, construct_some _ _ hb0, hz, hb0]
        · simp [hnf]

theorem numberStringToBigFloatHelper_eval (s : List Char) (res : Int) (places : Nat)
    (fd : Bool) (m : MonsterFloat)
    (hscan : s.foldl MonsterFloat.scanStep (0, 0, false) = (res, places, fd))
    (hnorm : MonsterFloat.normalize ⟨res, 10 ^ places⟩ = some m) :
    MonsterFloat.numberStringToBigFloatHelper s = some m := by
  simp only [MonsterFloat.numberStringToBigFloatHelper, hscan]
  show MonsterFloat.construct res (10 ^ places) >>= MonsterFloat.normalize = some m
  rw [construct_some _ _ (pow_ne_zero _ (by decide))]
  exact hnorm

theorem fromString_numeric_eval (s : List Char) (m : MonsterFloat)
    (hnum : jsIsNumericString s = true)
    (hh : MonsterFloat.numberStringToBigFloatHelper s = some m) :
    MonsterFloat.fromString s = Except.ok m := by
  simp only [MonsterFloat.fromString]
  rw [if_pos hnum, hh]

theorem fromString_fraction_eval (s p1 p2 : List Char) (a b : Int) (m : MonsterFloat)
    (hnum : jsIsNumericString s = false)
    (hsplit : splitOnChar '/' s = [p1, p2])
    (h1 : p1.isEmpty = false) (h2 : p2.isEmpty = false)
    (hb1 : jsBigIntOfString p1 = some a) (hb2 : jsBigIntOfString p2 = some b)
    (hb0 : ¬ b = 0)
    (hnorm : MonsterFloat.normalize ⟨a, b⟩ = some m) :
    MonsterFloat.fromString s = Except.ok m := by
  simp only [MonsterFloat.fromString]
  rw [if_neg (by simp [hnum])]
  simp only [hsplit]
  rw [if_neg (by simp [h1, h2])]
  rw [hb1, hb2]
  show (match MonsterFloat.construct a b >>= MonsterFloat.normalize with
    | some m' => Except.ok m'
    | none => Except.error MFError.parseError) = Except.ok m
  rw [construct_some _ _ hb0]
  show (match MonsterFloat.normalize ⟨a, b⟩ with
    | some m' => Except.ok m'
    | none => Except.error MFError.parseError) = Except.ok m
  rw [hnorm]

theorem normalize_three_fourths : MonsterFloat.normalize ⟨3, 4⟩ = some ⟨3, 4⟩ :=
  normalize_eval ⟨3, 4⟩ 1 3 4
    (gcdJ_step 3 4 3 1 (by decide) (by decide)
      (gcdJ_step 4 3 1 1 (by decide) (by decide)
        (gcdJ_step 3 1 0 1 (by decide) (by decide) (gcdJ_zero 1))))
    (by decide) (by decide) (by decide)

theorem normalize_sf_hundredths : MonsterFloat.normalize ⟨75, 100⟩ = some ⟨3, 4⟩ :=
  normalize_eval ⟨75, 100⟩ 25 3 4
    (gcdJ_step 75 100 75 25 (by decide) (by decide)
      (gcdJ_step 100 75 25 25 (by decide) (by decide)
        (gcdJ_step 75 25 0 25 (by decide) (by decide) (gcdJ_zero 25))))
    (by decide) (by decide) (by decide)

theorem normalize_one_half : MonsterFloat.normalize ⟨1, 2⟩ = some ⟨1, 2⟩ :=
  normalize_eval ⟨1, 2⟩ 1 1 2
    (gcdJ_step 1 2 1 1 (by decide) (by decide)
      (gcdJ_step 2 1 0 1 (by decide) (by decide) (gcdJ_zero 1)))
    (by decide) (by decide) (by decide)

theorem normalize_five_tenths : MonsterFloat.normalize ⟨5, 10⟩ = some ⟨1, 2⟩ :=
  normalize_eval ⟨5, 10⟩ 5 1 2
    (gcdJ_step 5 10 5 5 (by decide) (by decide)
      (gcdJ_step 10 5 0 5 (by decide) (by decide) (gcdJ_zero 5)))
    (by decide) (by decide) (by decide)

theorem normalize_neg_scan : MonsterFloat.normalize ⟨-285, 10⟩ = some ⟨57, -2⟩ :=
  normalize_eval ⟨-285, 10⟩ (-5) 57 (-2)
    (gcdJ_step (-285) 10 (-5) (-5) (by decide) (by decide)
      (gcdJ_step 10 (-5) 0 (-5) (by decide) (by decide) (gcdJ_zero (-5))))
    (by decide) (by decide) (by decide)

/-- C6: the fraction string `"3/4"` parses with the left-of-slash part
as numerator and the right as denominator (the source's `denom`/`num`
local names are swapped, but they are passed positionally, so the value
is the natural one), and the result is exactly the value of
`from(0.75)` (whose canonical string is `"0.75"`) and of
`from("0.75")`. -/
theorem claim_C6 :
    MonsterFloat.fromString "3/4".toList = Except.ok ⟨3, 4⟩ ∧
    MonsterFloat.fromString "0.75".toList = Except.ok ⟨3, 4⟩ ∧
    MonsterFloat.fromNumber "0.75".toList = some ⟨3, 4⟩ ∧
    (⟨3, 4⟩ : MonsterFloat).numerator = 3 ∧ (⟨3, 4⟩ : MonsterFloat).denominator = 4 := by
  have hh : MonsterFloat.numberStringToBigFloatHelper "0.75".toList = some ⟨3, 4⟩ :=
    numberStringToBigFloatHelper_eval _ 75 2 true ⟨3, 4⟩ (by decide) normalize_sf_hundredths
  refine ⟨?_, fromString_numeric_eval _ _ (by decide) hh, hh, rfl, rfl⟩
  exact fromString_fraction_eval _ ['3'] ['4'] 3 4 ⟨3, 4⟩ (by decide) (by decide)
    (by decide) (by decide) (by decide) (by decide) (by decide) normalize_three_fourths

theorem orderOperationHelper_eval (op : Int → Int → Bool) (a b c d : Int) (hd : d ≠ 0) :
    MonsterFloat.orderOperationHelper op ⟨a, b⟩ ⟨c, d⟩ = some (op (a * d) (c * b)) := by
  simp only [MonsterFloat.orderOperationHelper, MonsterFloat.copy]
  rw [construct_some _ _ hd]
  rfl

/-- C8: every comparison converts the operand and cross-multiplies:
with values `a/b` and `c/d` it applies the comparison operator to `a*d`
and `c*b`; in particular `from("1/2").isLessThan(from("3/4"))` is true
and `from("1/2").isEqual(0.5)` is true (0.5 converts through its
canonical string `"0.5"` to `1/2`). -/
theorem claim_C8 :
    (∀ a b c d : Int, d ≠ 0 →
      MonsterFloat.isEqual ⟨a, b⟩ ⟨c, d⟩ = some (a * d == c * b) ∧
      MonsterFloat.isLessThan ⟨a, b⟩ ⟨c, d⟩ = some (decide (a * d < c * b)) ∧
      MonsterFloat.isLessThanOrEqual ⟨a, b⟩ ⟨c, d⟩ = some (decide (a * d ≤ c * b)) ∧
      MonsterFloat.isGreaterThan ⟨a, b⟩ ⟨c, d⟩ = some (decide (a * d > c * b)) ∧
      MonsterFloat.isGreaterThanOrEqual ⟨a, b⟩ ⟨c, d⟩ = some (decide (a * d ≥ c * b))) ∧
    MonsterFloat.fromString "1/2".toList = Except.ok ⟨1, 2⟩ ∧
    MonsterFloat.fromString "3/4".toList = Except.ok ⟨3, 4⟩ ∧
    MonsterFloat.isLessThan ⟨1, 2⟩ ⟨3, 4⟩ = some true ∧
    MonsterFloat.fromNumber "0.5".toList = some ⟨1, 2⟩ ∧
    MonsterFloat.isEqual ⟨1, 2⟩ ⟨1, 2⟩ = some true := by
  refine ⟨?_, ?_, ?_, ?_, ?_, ?_⟩
  · intro a b c d hd
    refine ⟨?_, ?_, ?_, ?_, ?_⟩ <;>
      simp only [MonsterFloat.isEqual, MonsterFloat.isLessThan,
        MonsterFloat.isLessThanOrEqual, MonsterFloat.isGreaterThan,
        MonsterFloat.isGreaterThanOrEqual] <;>
      exact orderOperationHelper_eval _ a b c d hd
  · exact fromString_fraction_eval _ ['1'] ['2'] 1 2 ⟨1, 2⟩ (by decide) (by decide)
      (by decide) (by decide) (by decide) (by decide) (by decide) normalize_one_half
  · exact fromString_fraction_eval _ ['3'] ['4'] 3 4 ⟨3, 4⟩ (by decide) (by decide)
      (by decide) (by decide) (by decide) (by decide) (by decide) normalize_three_fourths
  · simp only [MonsterFloat.isLessThan]
    rw [orderOperationHelper_eval _ 1 2 3 4 (by decide)]
    decide
  · exact numberStringToBigFloatHelper_eval _ 5 1 true ⟨1, 2⟩ (by decide) normalize_five_tenths
  · simp only [MonsterFloat.isEqual]
    rw [orderOperationHelper_eval _ 1 2 1 2 (by decide)]
    decide

/-- Witness for the quantified part of C8 at the concrete input
`1/2` versus `3/4`. -/
theorem claim_C8_witness :
    (4 : Int) ≠ 0 ∧
    (MonsterFloat.isEqual ⟨1, 2⟩ ⟨3, 4⟩ = some ((1 : Int) * 4 == 3 * 2) ∧
     MonsterFloat.isLessThan ⟨1, 2⟩ ⟨3, 4⟩ = some (decide ((1 : Int) * 4 < 3 * 2)) ∧
     MonsterFloat.isLessThanOrEqual ⟨1, 2⟩ ⟨3, 4⟩ = some (decide ((1 : Int) * 4 ≤ 3 * 2)) ∧
     MonsterFloat.isGreaterThan ⟨1, 2⟩ ⟨3, 4⟩ = some (decide ((1 : Int) * 4 > 3 * 2)) ∧
     MonsterFloat.isGreaterThanOrEqual ⟨1, 2⟩ ⟨3, 4⟩ = some (decide ((1 : Int) * 4 ≥ 3 * 2))) :=
  ⟨by decide, claim_C8.1 1 2 3 4 (by decide)⟩

/-- C5 (the code contradicts the spec's intent here): the canonical
string of the JS number `-1.5` is `"-1.5"`, whose exactly denoted value
is `-3/2`; but the digit scan treats the minus sign as the digit
`'-'.charCodeAt(0) - 48 = -3`, accumulating `-285/10`, which normalizes
to `57/(-2)` — not value-equal to `-3/2` (cross-multiplication:
`57 * 2 = 114` versus `-3 * -2 = 6`). -/
theorem claim_C5 :
    MonsterFloat.fromNumber "-1.5".toList = some ⟨57, -2⟩ ∧
    ¬((57 : Int) * 2 = (-3) * (-2)) := by
  refine ⟨?_, by decide⟩
  exact numberStringToBigFloatHelper_eval _ (-285) 1 true ⟨57, -2⟩ (by decide)
    normalize_neg_scan

/-! ## The long-division loop -/

theorem digitsVal_shift (B : List Char) : ∀ a : Nat,
    B.foldl (fun x c => 10 * x + (c.toNat - 48)) a = a * 10 ^ B.length + digitsVal B := by
  induction B with
  | nil => intro a; simp [digitsVal]
  | cons c B ih =>
    intro a
    rw [List.foldl_cons, ih (10 * a + (c.toNat - 48))]
    have h0 : digitsVal (c :: B) = (c.toNat - 48) * 10 ^ B.length + digitsVal B := by
      unfold digitsVal
      rw [List.foldl_cons, ih (10 * 0 + (c.toNat - 48))]
      have hx : 10 * 0 + (c.toNat - 48) = c.toNat - 48 := by omega
      rw [hx]
      rfl
    rw [h0, List.length_cons, pow_succ]
    ring

theorem digitsVal_append2 (A B : List Char) :
    digitsVal (A ++ B) = digitsVal A * 10 ^ B.length + digitsVal B := by
  unfold digitsVal
  rw [List.foldl_append]
  exact digitsVal_shift B _

theorem digitsVal_replicate_zero (k : Nat) : digitsVal (List.replicate k '0') = 0 := by
  induction k with
  | zero => rfl
  | succ n ih =>
    rw [List.replicate_succ]
    unfold digitsVal
    rw [List.foldl_cons]
    have h0 : 10 * 0 + ('0'.toNat - 48) = 0 := by decide
    rw [h0]
    exact ih

theorem digitsVal_zeros_append (k : Nat) (l : List Char) :
    digitsVal (List.replicate k '0' ++ l) = digitsVal l := by
  rw [digitsVal_append2, digitsVal_replicate_zero]
  simp

theorem jsDigits_of_nonneg {i : Int} (h : 0 ≤ i) :
    MonsterFloat.jsDigits i = ((natToDigits i.natAbs).length : Int) := by
  unfold MonsterFloat.jsDigits intToStr
  rw [if_neg (by omega)]

theorem tnsLoop_succ (den : Int) (fuel : Nat) (carry e : Int) :
    MonsterFloat.tnsLoop den (fuel+1) carry e =
      (List.replicate (e - MonsterFloat.jsDigits (carry.tdiv den)).toNat '0'
          ++ intToStr (carry.tdiv den)) ++
        (if carry - carry.tdiv den * den = 0 then []
         else MonsterFloat.fracLoop den (carry - carry.tdiv den * den) fuel) := by
  simp only [MonsterFloat.tnsLoop]
  split
  · simp
  · rfl

theorem fracLoop_spec (den : Int) (hden : 0 < den) : ∀ (fuel : Nat) (r : Int),
    0 < r → r < den →
    (∀ c ∈ MonsterFloat.fracLoop den r fuel, isDecDigit c = true) ∧
    (MonsterFloat.fracLoop den r fuel).length
      ≤ fuel * (MonsterFloat.jsDigits (den - 1)).toNat ∧
    (1 ≤ fuel → MonsterFloat.fracLoop den r fuel ≠ []) ∧
    ∃ rf : Int, 0 ≤ rf ∧ rf < den ∧
      r * 10 ^ (MonsterFloat.fracLoop den r fuel).length
        = (digitsVal (MonsterFloat.fracLoop den r fuel) : Int) * den + rf := by
  intro fuel
  induction fuel with
  | zero =>
    intro r hr0 hrden
    have hnil : MonsterFloat.fracLoop den r 0 = [] := rfl
    rw [hnil]
    refine ⟨by simp, by simp, by omega, r, by omega, hrden, by simp [digitsVal]⟩
  | succ fuel ih =>
    intro r hr0 hrden
    have hLd1 : 1 ≤ (natToDigits (den - 1).natAbs).length := natToDigits_length_pos _
    have hLr1 : 1 ≤ (natToDigits r.natAbs).length := natToDigits_length_pos _
    have hjd_den : MonsterFloat.jsDigits (den - 1)
        = ((natToDigits (den - 1).natAbs).length : Int) := jsDigits_of_nonneg (by omega)
    have hjd_r : MonsterFloat.jsDigits r
        = ((natToDigits r.natAbs).length : Int) := jsDigits_of_nonneg (by omega)
    have hmono : (natToDigits r.natAbs).length ≤ (natToDigits (den - 1).natAbs).length :=
      natToDigits_length_mono (by omega)
    set Ld := (natToDigits (den - 1).natAbs).length with hLd_def
    set Lr := (natToDigits r.natAbs).length with hLr_def
    set E := Ld - Lr + 1 with hE_def
    have hE1 : 1 ≤ E := by omega
    have hELd : E ≤ Ld := by omega
    have he_toNat : (MonsterFloat.jsDigits (den - 1) - MonsterFloat.jsDigits r + 1).toNat
        = E := by
      rw [hjd_den, hjd_r]; omega
    have he_int : MonsterFloat.jsDigits (den - 1) - MonsterFloat.jsDigits r + 1
        = (E : Int) := by
      rw [hjd_den, hjd_r]; omega
    have hcarry_def : (MonsterFloat.getNextCarry den r).1 = r * 10 ^ E := by
      show r * 10 ^ (MonsterFloat.jsDigits (den - 1) - MonsterFloat.jsDigits r + 1).toNat
        = r * 10 ^ E
      rw [he_toNat]
    have hB : (MonsterFloat.getNextCarry den r).2 = (E : Int) := by
      show MonsterFloat.jsDigits (den - 1) - MonsterFloat.jsDigits r + 1 = (E : Int)
      exact he_int
    have hpow_pos : (0 : Int) < 10 ^ E := by positivity
    have hstep : MonsterFloat.fracLoop den r (fuel+1)
        = MonsterFloat.tnsLoop den (fuel+1) (MonsterFloat.getNextCarry den r).1
            (MonsterFloat.getNextCarry den r).2 := rfl
    rw [tnsLoop_succ, hcarry_def, hB] at hstep
    -- facts about the emitted digit
    set d := (r * 10 ^ E).tdiv den with hd_def
    have hcarry0 : (0 : Int) ≤ r * 10 ^ E := mul_nonneg (by omega) (by positivity)
    have hd_ediv : d = (r * 10 ^ E) / den := Int.tdiv_eq_ediv hcarry0 (by omega)
    have hr_lb : ((10 : Int)) ^ (Lr - 1) ≤ r := by
      have h1 := natToDigits_le r.natAbs (by omega)
      rw [← hLr_def] at h1
      have h2 : ((10 ^ (Lr - 1) : Nat) : Int) ≤ (r.natAbs : Int) := by exact_mod_cast h1
      have h3 : ((r.natAbs : Nat) : Int) = r := by omega
      rw [h3, Nat.cast_pow] at h2
      norm_num at h2
      exact h2
    have hden_ub : den - 1 < (10 : Int) ^ Ld := by
      have h1 := natToDigits_lt (den - 1).natAbs
      rw [← hLd_def] at h1
      have h2 : (((den - 1).natAbs : Nat) : Int) < ((10 ^ Ld : Nat) : Int) := by
        exact_mod_cast h1
      have h3 : (((den - 1).natAbs : Nat) : Int) = den - 1 := by omega
      rw [h3, Nat.cast_pow] at h2
      norm_num at h2
      exact h2
    have hcarry_den : den ≤ r * 10 ^ E := by
      have h1 : (10 : Int) ^ (Lr - 1) * 10 ^ E ≤ r * 10 ^ E :=
        mul_le_mul_of_nonneg_right hr_lb (le_of_lt hpow_pos)
      have h2 : (10 : Int) ^ (Lr - 1) * 10 ^ E = 10 ^ Ld := by
        rw [← pow_add]
        congr 1
        omega
      omega
    have hd1 : 1 ≤ d := by
      rw [hd_ediv]
      exact (Int.le_ediv_iff_mul_le hden).mpr (by omega)
    have hdlt : d < 10 ^ E := by
      rw [hd_ediv]
      refine (Int.ediv_lt_iff_lt_mul hden).mpr ?_
      rw [mul_comm ((10 : Int) ^ E) den]
      exact mul_lt_mul_of_pos_right hrden hpow_pos
    have hd0 : (0 : Int) ≤ d := by omega
    have hdna : ((d.natAbs : Nat) : Int) = d := by omega
    set Ldd := (natToDigits d.natAbs).length with hLdd_def
    have hjd_d : MonsterFloat.jsDigits d = (Ldd : Int) := jsDigits_of_nonneg hd0
    have hd_natAbs_lt : d.natAbs < 10 ^ E := by
      have hc : ((10 ^ E : Nat) : Int) = (10 : Int) ^ E := by push_cast; rfl
      omega
    have hLdd : Ldd ≤ E := natToDigits_length_le E hE1 hd_natAbs_lt
    rw [hjd_d] at hstep
    have hz : ((E : Int) - (Ldd : Int)).toNat = E - Ldd := by omega
    rw [hz] at hstep
    have hintToStr_d : intToStr d = natToDigits d.natAbs := by
      unfold intToStr
      rw [if_neg (by omega)]
    rw [hintToStr_d] at hstep
    set r2 := r * 10 ^ E - d * den with hr2_def
    -- block facts
    have hblock_len : (List.replicate (E - Ldd) '0' ++ natToDigits d.natAbs).length = E := by
      rw [List.length_append, List.length_replicate]
      omega
    have hblock_val : digitsVal (List.replicate (E - Ldd) '0' ++ natToDigits d.natAbs)
        = d.natAbs := by
      rw [digitsVal_zeros_append, digitsVal_natToDigits]
    have hblock_digits : ∀ c ∈ List.replicate (E - Ldd) '0' ++ natToDigits d.natAbs,
        isDecDigit c = true := by
      intro c hcm
      rcases List.mem_append.mp hcm with hm | hm
      · rw [(List.mem_replicate.mp hm).2]; decide
      · exact natToDigits_all_digits _ _ hm
    have hblock_ne : List.replicate (E - Ldd) '0' ++ natToDigits d.natAbs ≠ [] := by
      intro hnil
      rw [List.append_eq_nil] at hnil
      exact natToDigits_ne_nil _ hnil.2
    -- the remainder of the division step
    have hr2_mod : r2 = (r * 10 ^ E) % den := by
      rw [hr2_def, hd_def, Int.tdiv_eq_ediv hcarry0 (by omega), Int.emod_def]
      ring
    have hr2_0 : 0 ≤ r2 := by
      rw [hr2_mod]; exact Int.emod_nonneg _ (by omega)
    have hr2_den : r2 < den := by
      rw [hr2_mod]; exact Int.emod_lt_of_pos _ hden
    have hLdtoNat : (MonsterFloat.jsDigits (den - 1)).toNat = Ld := by
      rw [hjd_den]; omega
    by_cases h2 : r2 = 0
    · rw [if_pos h2, List.append_nil] at hstep
      rw [hstep]
      refine ⟨hblock_digits, ?_, fun _ => hblock_ne, 0, le_refl 0, hden, ?_⟩
      · rw [hblock_len, hLdtoNat]
        calc E ≤ Ld := hELd
          _ = 1 * Ld := (one_mul Ld).symm
          _ ≤ (fuel + 1) * Ld := Nat.mul_le_mul_right Ld (by omega)
      · rw [hblock_len, hblock_val, hdna]
        omega
    · rw [if_neg h2] at hstep
      obtain ⟨ihdig, ihlen, _, rf, hrf0, hrfden, ihinv⟩ := ih r2 (by omega) hr2_den
      rw [hstep]
      refine ⟨?_, ?_, ?_, rf, hrf0, hrfden, ?_⟩
      · intro c hcm
        rcases List.mem_append.mp hcm with hm | hm
        · exact hblock_digits c hm
        · exact ihdig c hm
      · rw [List.length_append, hblock_len, hLdtoNat]
        rw [hLdtoNat] at ihlen
        have hsm : (fuel + 1) * Ld = fuel * Ld + Ld := by ring
        omega
      · intro _
        intro hnil
        rw [List.append_eq_nil] at hnil
        exact hblock_ne hnil.1
      · rw [List.length_append, hblock_len, digitsVal_append2, hblock_val]
        set L2 := (MonsterFloat.fracLoop den r2 fuel).length with hL2
        set v2 := digitsVal (MonsterFloat.fracLoop den r2 fuel) with hv2
        have hpowadd : (10 : Int) ^ (E + L2) = 10 ^ E * 10 ^ L2 := pow_add 10 E L2
        have hcastv : ((d.natAbs * 10 ^ L2 + v2 : Nat) : Int)
            = d * 10 ^ L2 + (v2 : Int) := by
          rw [Nat.cast_add, Nat.cast_mul, Nat.cast_pow, hdna]
          norm_num
        rw [hcastv, hpowadd]
        have hsplit2 : r * 10 ^ E = d * den + r2 := by omega
        calc r * (10 ^ E * 10 ^ L2) = (r * 10 ^ E) * 10 ^ L2 := by ring
          _ = (d * den + r2) * 10 ^ L2 := by rw [hsplit2]
          _ = d * den * 10 ^ L2 + r2 * 10 ^ L2 := by ring
          _ = d * den * 10 ^ L2 + ((v2 : Int) * den + rf) := by rw [ihinv]
          _ = (d * 10 ^ L2 + (v2 : Int)) * den + rf := by ring

theorem toNumberString_frac (num den p : Int) (hrest : num.tmod den ≠ 0) (hp : 0 < p) :
    MonsterFloat.toNumberString ⟨num, den⟩ p
      = intToStr (num.tdiv den) ++ '.' :: MonsterFloat.fracLoop den (num.tmod den) p.toNat := by
  simp only [MonsterFloat.toNumberString]
  rw [if_neg (by push_neg; exact ⟨hrest, by omega⟩)]
  rfl

/-- C1: for a nonnegative numerator, positive denominator, nonzero
remainder and positive precision, `toNumberString` renders the integer
quotient, a dot, and a nonempty run of decimal digits whose numeric
value is exactly the truncated (floor, not rounded) decimal expansion of
`numerator/denominator` at the emitted length — embedded zero runs
included, since the digit string's value determines every digit.  In
particular `1/1000` at precision 5 renders `"0.001"`, whose fractional
digits denote exactly `1/1000`. -/
theorem claim_C1 :
    (∀ num den p : Int, 0 ≤ num → 0 < den → num.tmod den ≠ 0 → 0 < p →
      ∃ frac : List Char,
        MonsterFloat.toNumberString ⟨num, den⟩ p
          = intToStr (num.tdiv den) ++ '.' :: frac ∧
        frac ≠ [] ∧ (∀ c ∈ frac, isDecDigit c = true) ∧
        (digitsVal frac : Int) = num.tmod den * 10 ^ frac.length / den ∧
        ∃ rf : Int, 0 ≤ rf ∧ rf < den ∧
          num.tmod den * 10 ^ frac.length = (digitsVal frac : Int) * den + rf) ∧
    MonsterFloat.toNumberString ⟨1, 1000⟩ 5 = "0.001".toList ∧
    (1 : Int) * 10 ^ ("001".toList).length = (digitsVal "001".toList : Int) * 1000 := by
  refine ⟨?_, by decide, by decide⟩
  intro num den p hnum hden hrest hp
  have htmod := Int.tmod_eq_emod hnum (le_of_lt hden)
  have hrest0 : 0 < num.tmod den := by
    have h2 := Int.emod_nonneg num (show den ≠ 0 by omega)
    omega
  have hrestden : num.tmod den < den := by
    have h2 := Int.emod_lt_of_pos num hden
    omega
  obtain ⟨hdig, hlen, hne, rf, hrf0, hrfden, hinv⟩ :=
    fracLoop_spec den hden p.toNat (num.tmod den) hrest0 hrestden
  refine ⟨MonsterFloat.fracLoop den (num.tmod den) p.toNat,
    toNumberString_frac num den p hrest hp,
    hne (by omega), hdig, ?_, rf, hrf0, hrfden, hinv⟩
  rw [hinv, add_comm, Int.add_mul_ediv_right _ _ (show den ≠ 0 by omega),
    Int.ediv_eq_zero_of_lt hrf0 hrfden, zero_add]

/-- Witness for the quantified part of C1 at the concrete input
`1/1000` with precision 5. -/
theorem claim_C1_witness :
    (0 : Int) ≤ 1 ∧
    ∃ frac : List Char,
      MonsterFloat.toNumberString ⟨1, 1000⟩ 5
        = intToStr ((1 : Int).tdiv 1000) ++ '.' :: frac ∧
      frac ≠ [] ∧ (∀ c ∈ frac, isDecDigit c = true) ∧
      (digitsVal frac : Int) = (1 : Int).tmod 1000 * 10 ^ frac.length / 1000 ∧
      ∃ rf : Int, 0 ≤ rf ∧ rf < 1000 ∧
        (1 : Int).tmod 1000 * 10 ^ frac.length = (digitsVal frac : Int) * 1000 + rf :=
  ⟨by decide, claim_C1.1 1 1000 5 (by decide) (by decide) (by decide) (by decide)⟩

/-- C2 counterexample: the claim bounds the count of fractional digits
by `max(p, 0)`, but the loop spends one unit of the precision budget per
digit *block*: `Rational(1, 1000).toNumberString(1)` renders `"0.001"`,
which has 3 fractional digits, more than `p = 1`. -/
theorem claim_C2_counterexample :
    MonsterFloat.toNumberString ⟨1, 1000⟩ 1 = "0.".toList ++ "001".toList ∧
    ¬(("001".toList).length ≤ (1 : Int).toNat) :=
  ⟨by decide, by decide⟩

/-- C2 (amended): when `p ≤ 0`, or when the remainder is zero, the
result is only the integer quotient rendered as a plain integer string,
with no fractional digits and no decimal point; otherwise (for
nonnegative numerator and positive denominator) the loop runs at most
`max(p, 0)` iterations, each emitting one digit block of at most
`digitCount(denominator − 1)` digits, so the fractional part has at most
`max(p, 0) · digitCount(denominator − 1)` digits — but it can exceed
`max(p, 0)` digits (see the counterexample). -/
theorem claim_C2 :
    (∀ (x : MonsterFloat) (p : Int), p ≤ 0 →
      MonsterFloat.toNumberString x p = intToStr (x.numerator.tdiv x.denominator)) ∧
    (∀ (x : MonsterFloat) (p : Int), x.numerator.tmod x.denominator = 0 →
      MonsterFloat.toNumberString x p = intToStr (x.numerator.tdiv x.denominator)) ∧
    (∀ num den p : Int, 0 ≤ num → 0 < den → 0 < p → num.tmod den ≠ 0 →
      ∃ frac : List Char,
        MonsterFloat.toNumberString ⟨num, den⟩ p
          = intToStr (num.tdiv den) ++ '.' :: frac ∧
        frac.length ≤ p.toNat * (MonsterFloat.jsDigits (den - 1)).toNat) := by
  refine ⟨?_, ?_, ?_⟩
  · intro x p hp
    simp only [MonsterFloat.toNumberString]
    rw [if_pos (Or.inr hp)]
  · intro x p h0
    simp only [MonsterFloat.toNumberString]
    rw [if_pos (Or.inl h0)]
  · intro num den p hnum hden hp hrest
    have htmod := Int.tmod_eq_emod hnum (le_of_lt hden)
    have hrest0 : 0 < num.tmod den := by
      have h2 := Int.emod_nonneg num (show den ≠ 0 by omega)
      omega
    have hrestden : num.tmod den < den := by
      have h2 := Int.emod_lt_of_pos num hden
      omega
    obtain ⟨_, hlen, _, _⟩ :=
      fracLoop_spec den hden p.toNat (num.tmod den) hrest0 hrestden
    exact ⟨_, toNumberString_frac num den p hrest hp, hlen⟩

/-- Witness for C2: the `p ≤ 0` clause at `355/113` with `p = -1`, and
the digit-block bound at `1/1000` with `p = 5`. -/
theorem claim_C2_witness :
    ((-1 : Int) ≤ 0 ∧
      MonsterFloat.toNumberString ⟨355, 113⟩ (-1)
        = intToStr ((355 : Int).tdiv 113)) ∧
    ∃ frac : List Char,
      MonsterFloat.toNumberString ⟨1, 1000⟩ 5
        = intToStr ((1 : Int).tdiv 1000) ++ '.' :: frac ∧
      frac.length ≤ (5 : Int).toNat * (MonsterFloat.jsDigits (1000 - 1)).toNat :=
  ⟨⟨by decide, claim_C2.1 ⟨355, 113⟩ (-1) (by decide)⟩,
    claim_C2.2.2 1 1000 5 (by decide) (by decide) (by decide) (by decide)⟩
